import Mathlib

/-!
Verification of the SilkCast shared-session streaming engine.

The definitions below are shallow embeddings of the C++ sources:
byte buffers are `List Nat` (each element a byte value), strings are
Lean `String`, machine integers are `Nat`/`Int` with explicit `% 2 ^ w`
where truncation can matter, and the stateful responder loops become
explicit state-passing functions over lists of loop events.
-/

namespace SilkCast

/-! ## Byte-buffer helpers (mp4_frag.cpp anonymous namespace) -/

/-- append_be32: big-endian 32-bit serialization (`(v >> k) & 0xFF` bytes).
For `v ≥ 2 ^ 32` this agrees with first truncating `v` to `uint32_t`. -/
def be32 (v : Nat) : List Nat :=
  [v / 2 ^ 24 % 256, v / 2 ^ 16 % 256, v / 2 ^ 8 % 256, v % 256]

/-- append_be16: big-endian 16-bit serialization. -/
def be16 (v : Nat) : List Nat :=
  [v / 2 ^ 8 % 256, v % 256]

/-- append_version_flags: one version byte and a 24-bit big-endian flags field. -/
def version_flags (version : Nat) (flags : Nat) : List Nat :=
  [version % 256, flags / 2 ^ 16 % 256, flags / 2 ^ 8 % 256, flags % 256]

/-- append_box: 32-bit size (payload + 8), four tag bytes, then the payload. -/
def box (tag : List Nat) (payload : List Nat) : List Nat :=
  be32 (payload.length + 8) ++ tag ++ payload

def tagMfhd : List Nat := [109, 102, 104, 100]
def tagTfhd : List Nat := [116, 102, 104, 100]
def tagTfdt : List Nat := [116, 102, 100, 116]
def tagTrun : List Nat := [116, 114, 117, 110]
def tagTraf : List Nat := [116, 114, 97, 102]
def tagMoof : List Nat := [109, 111, 111, 102]
def tagMdat : List Nat := [109, 100, 97, 116]

/-! ## Mp4Fragmenter::build_fragment

The repository carries two copies of `mp4_frag.cpp`.  `Mp4.build_fragment`
embeds the copy that wraps `tfhd`/`tfdt`/`trun` in a `traf` box before
placing it in `moof`.  `Mp4Old.build_fragment` embeds the second copy, which
computes `traf_size` with an 8-byte box header but then concatenates the
sub-boxes into `moof` without ever emitting the `traf` header. -/

namespace Mp4

/-- build_fragment from the copy of mp4_frag.cpp that boxes `traf`:
`mfhd`, `traf(tfhd ++ tfdt ++ trun)` inside a `moof` box, followed by
an `mdat` box holding exactly `sample`.  `trun`'s data-offset field is
`moof_size + 8` with `moof_size` precomputed from the sub-box sizes. -/
def build_fragment (sample : List Nat) (seq bdt dur : Nat) (keyframe : Bool) :
    List Nat :=
  let mfhd := box tagMfhd (version_flags 0 0 ++ be32 seq)
  let tfhd := box tagTfhd (version_flags 0 0x020000 ++ be32 1)
  let tfdt := box tagTfdt (version_flags 0 0 ++ be32 bdt)
  let trun_payload := 4 + 4 + 4 + 4 + 4 + 4
  let trun_size := trun_payload + 8
  let traf_size := tfhd.length + tfdt.length + trun_size + 8
  let moof_size := mfhd.length + traf_size + 8
  let data_offset := moof_size + 8
  let trun := box tagTrun
      (version_flags 0 0x000701 ++ be32 1 ++ be32 data_offset ++ be32 dur ++
        be32 sample.length ++
        be32 (if keyframe then 0x02000000 else 0x01010000))
  let traf := box tagTraf (tfhd ++ tfdt ++ trun)
  let moof := box tagMoof (mfhd ++ traf)
  moof ++ be32 (8 + sample.length) ++ tagMdat ++ sample

end Mp4

namespace Mp4Old

/-- build_fragment from the second copy of mp4_frag.cpp: `traf_size` and
`moof_size` are computed as if a `traf` box header were present, but the
sub-boxes are appended to the `moof` payload without one. -/
def build_fragment (sample : List Nat) (seq bdt dur : Nat) (keyframe : Bool) :
    List Nat :=
  let mfhd := box tagMfhd ([0, 0, 0, 0] ++ be32 seq)
  let tfhd := box tagTfhd ([0, 0, 0, 0] ++ be32 1 ++ be32 0x020000)
  let tfdt := box tagTfdt ([0, 0, 0, 0] ++ be32 bdt)
  let trun_payload := 4 + 4 + 4 + 4 + 4 + 4
  let trun_size := trun_payload + 8
  let traf_size := tfhd.length + tfdt.length + trun_size + 8
  let moof_size := mfhd.length + traf_size + 8
  let data_offset := moof_size + 8
  let trun := box tagTrun
      ([0, 0x0F, 0x0F, 0x0F] ++ be32 1 ++ be32 data_offset ++ be32 dur ++
        be32 sample.length ++
        be32 (if keyframe then 0x02000000 else 0x01010000))
  let traf := tfhd ++ tfdt ++ trun
  let moof_payload := mfhd ++ traf
  be32 moof_size ++ tagMoof ++ moof_payload ++
    be32 (8 + sample.length) ++ tagMdat ++ sample

end Mp4Old

/-- In the `traf`-boxing copy, the fragment always consists of a 96-byte
`moof` box (whose declared size is 96), an 8-byte `mdat` header, and the
sample: the `trun` data-offset field (bytes 80..83 of the output) holds
`104 = 96 + 8`, and byte 104 onward is exactly the sample. -/
theorem Mp4.build_fragment_layout (sample : List Nat) (seq bdt dur : Nat)
    (keyframe : Bool) :
    (Mp4.build_fragment sample seq bdt dur keyframe).take 4 = be32 96 ∧
    ((Mp4.build_fragment sample seq bdt dur keyframe).drop 80).take 4 =
      be32 104 ∧
    (Mp4.build_fragment sample seq bdt dur keyframe).drop 104 = sample ∧
    (Mp4.build_fragment sample seq bdt dur keyframe).length =
      104 + sample.length := by
  simp [Mp4.build_fragment, box, be32, version_flags, tagMfhd, tagTfhd,
    tagTfdt, tagTrun, tagTraf, tagMoof, tagMdat, List.take_succ_cons,
    List.drop_succ_cons]
  omega

/-! ## Annex-B scanning and AVCC conversion (stream_utils.cpp) -/

/-- The start-code test shared by annexb_to_avcc and extract_sps_pps:
a 3-byte `00 00 01` or a 4-byte `00 00 00 01` code starting at `pos`,
with the same bounds checks as the C++ lambda. -/
def is_start_code (a : List Nat) (pos : Nat) : Bool :=
  decide (pos + 2 < a.length) &&
    (a.getD pos 0 == 0) && (a.getD (pos + 1) 0 == 0) &&
    ((a.getD (pos + 2) 0 == 1) ||
      ((a.getD (pos + 2) 0 == 0) && decide (pos + 3 < a.length) &&
        (a.getD (pos + 3) 0 == 1)))

/-- The inner scan `while (next + 3 < len && !is_start_code(next)) ++next;`
returning the final value of `next`. -/
def findNext (a : List Nat) (next : Nat) : Nat :=
  if next + 3 < a.length ∧ ¬ is_start_code a next then findNext a (next + 1)
  else next
termination_by a.length - next
decreasing_by omega

theorem findNext_ge (a : List Nat) (next : Nat) : next ≤ findNext a next := by
  unfold findNext
  split
  · have h := findNext_ge a (next + 1)
    omega
  · omega
termination_by a.length - next
decreasing_by omega

/-- The scan performed by the loop of annexb_to_avcc, as a list of
`(start offset, nal length)` pairs: a NAL starts right after its start
code and ends at the next start code, or at the end of the buffer when
the inner scan ran off the end. -/
def scanNals (a : List Nat) (i : Nat) : List (Nat × Nat) :=
  if i + 3 < a.length then
    if is_start_code a i then
      let start := i + (if a.getD (i + 2) 0 == 1 then 3 else 4)
      let next := findNext a start
      (start, (if next + 3 < a.length then next else a.length) - start) ::
        scanNals a next
    else scanNals a (i + 1)
  else []
termination_by a.length - i
decreasing_by
  all_goals try split
  all_goals
    first
      | (have h := findNext_ge a (i + 3); omega)
      | (have h := findNext_ge a (i + 4); omega)
      | omega

/-- stream::annexb_to_avcc: for every scanned NAL, append a big-endian
32-bit length followed by the NAL bytes. -/
def avccLoop (a : List Nat) (i : Nat) : List Nat :=
  if i + 3 < a.length then
    if is_start_code a i then
      let start := i + (if a.getD (i + 2) 0 == 1 then 3 else 4)
      let next := findNext a start
      let nalsize := (if next + 3 < a.length then next else a.length) - start
      be32 nalsize ++ (a.drop start).take nalsize ++ avccLoop a next
    else avccLoop a (i + 1)
  else []
termination_by a.length - i
decreasing_by
  all_goals try split
  all_goals
    first
      | (have h := findNext_ge a (i + 3); omega)
      | (have h := findNext_ge a (i + 4); omega)
      | omega

def annexb_to_avcc (a : List Nat) : List Nat := avccLoop a 0

/-- stream::extract_sps_pps: scan the Annex-B buffer; the first nonempty
NAL with type 7 fills `sps` (if still empty), else the first with type 8
fills `pps` (if still empty); stop as soon as both are nonempty. -/
def extractLoop (a : List Nat) (i : Nat) (sps pps : List Nat) :
    List Nat × List Nat :=
  if i + 3 < a.length then
    if is_start_code a i then
      let start := i + (if a.getD (i + 2) 0 == 1 then 3 else 4)
      let next := findNext a start
      let nalsize := (if next + 3 < a.length then next else a.length) - start
      if nalsize = 0 then extractLoop a next sps pps
      else
        let t := a.getD start 0 % 32
        let sps2 :=
          if t = 7 ∧ sps = [] then (a.drop start).take nalsize else sps
        let pps2 :=
          if ¬(t = 7 ∧ sps = []) ∧ t = 8 ∧ pps = [] then
            (a.drop start).take nalsize
          else pps
        if sps2 ≠ [] ∧ pps2 ≠ [] then (sps2, pps2)
        else extractLoop a next sps2 pps2
    else extractLoop a (i + 1) sps pps
  else (sps, pps)
termination_by a.length - i
decreasing_by
  all_goals try split
  all_goals
    first
      | (have h := findNext_ge a (i + 3); omega)
      | (have h := findNext_ge a (i + 4); omega)
      | omega

def extract_sps_pps (a : List Nat) (sps pps : List Nat) :
    List Nat × List Nat :=
  extractLoop a 0 sps pps

/-- Every scanned NAL lies inside the buffer: `start + length ≤ a.length`. -/
theorem scanNals_bounds (a : List Nat) (i : Nat) :
    ∀ p ∈ scanNals a i, p.1 + p.2 ≤ a.length := by
  unfold scanNals
  split
  · split
    · intro p hp
      rcases List.mem_cons.mp hp with h | h
      · subst h
        dsimp only
        split <;> split <;> omega
      · exact scanNals_bounds a _ p h
    · exact scanNals_bounds a (i + 1)
  · intro p hp
    simp at hp
termination_by a.length - i
decreasing_by
  all_goals try split
  all_goals
    first
      | (have h := findNext_ge a (i + 3); omega)
      | (have h := findNext_ge a (i + 4); omega)
      | omega

/-- The avcc loop emits, NAL by NAL, the 4-byte length followed by the
NAL bytes of each scanned NAL — including zero-length NALs. -/
theorem avccLoop_eq_scanNals (a : List Nat) (i : Nat) :
    avccLoop a i =
      ((scanNals a i).map
        (fun p => be32 p.2 ++ (a.drop p.1).take p.2)).flatten := by
  unfold avccLoop scanNals
  split
  · split
    · simp only [List.map_cons, List.flatten_cons, List.append_assoc]
      rw [avccLoop_eq_scanNals]
    · exact avccLoop_eq_scanNals a (i + 1)
  · simp
termination_by a.length - i
decreasing_by
  all_goals try split
  all_goals
    first
      | (have h := findNext_ge a (i + 3); omega)
      | (have h := findNext_ge a (i + 4); omega)
      | omega

theorem annexb_to_avcc_length (a : List Nat) :
    (annexb_to_avcc a).length =
      ((scanNals a 0).map (fun p => 4 + p.2)).sum := by
  rw [annexb_to_avcc, avccLoop_eq_scanNals, List.length_flatten, List.map_map]
  refine congrArg List.sum (List.map_congr_left ?_)
  intro p hp
  have hb := scanNals_bounds a 0 p hp
  simp [be32]
  omega

/-- Claim C2 (amended): annexb_to_avcc returns the concatenation, over the
scanned NAL units, of a big-endian 32-bit length followed by the NAL bytes
(in place of the start code); the total output length is the sum over all
scanned NAL units — including zero-length ones — of `4 + nal_length`.
Zero-length NAL units are not skipped: each contributes its 4-byte zero
length prefix to the output. -/
theorem annexb_to_avcc_emits_all_scanned_nals (a : List Nat) :
    annexb_to_avcc a =
      ((scanNals a 0).map
        (fun p => be32 p.2 ++ (a.drop p.1).take p.2)).flatten ∧
    (annexb_to_avcc a).length =
      ((scanNals a 0).map (fun p => 4 + p.2)).sum :=
  ⟨avccLoop_eq_scanNals a 0, annexb_to_avcc_length a⟩

/-- Follows the words of the spec clause under test in claim C2, as the
reference semantics to compare against: zero-length NAL units (consecutive
start codes) are skipped and contribute nothing to the output. -/
def avcc_spec_skip_zero (a : List Nat) : List Nat :=
  (((scanNals a 0).filter (fun p => p.2 != 0)).map
    (fun p => be32 p.2 ++ (a.drop p.1).take p.2)).flatten

/-- Claim C2, counterexample: on the buffer `00 00 01 | 00 00 01 41`
(a zero-length NAL between two start codes, then a 1-byte NAL) the code
emits `00 00 00 00 | 00 00 00 01 41` — the zero-length NAL contributes a
4-byte zero length prefix — whereas the spec's skipping rule would give
`00 00 00 01 41`. -/
theorem annexb_to_avcc_keeps_zero_length_nals :
    annexb_to_avcc [0, 0, 1, 0, 0, 1, 65] = [0, 0, 0, 0, 0, 0, 0, 1, 65] ∧
    avcc_spec_skip_zero [0, 0, 1, 0, 0, 1, 65] = [0, 0, 0, 1, 65] ∧
    annexb_to_avcc [0, 0, 1, 0, 0, 1, 65] ≠
      avcc_spec_skip_zero [0, 0, 1, 0, 0, 1, 65] := by
  have hf3 : findNext [0, 0, 1, 0, 0, 1, 65] 3 = 3 := by
    unfold findNext
    norm_num [is_start_code]
  have hf6 : findNext [0, 0, 1, 0, 0, 1, 65] 6 = 6 := by
    unfold findNext
    norm_num
  have hscan : scanNals [0, 0, 1, 0, 0, 1, 65] 0 = [(3, 0), (6, 1)] := by
    rw [scanNals]
    norm_num [is_start_code, hf3]
    rw [scanNals]
    norm_num [is_start_code, hf6]
    rw [scanNals]
    norm_num
  have hav :
      annexb_to_avcc [0, 0, 1, 0, 0, 1, 65] = [0, 0, 0, 0, 0, 0, 0, 1, 65] := by
    unfold annexb_to_avcc
    rw [avccLoop]
    norm_num [is_start_code, hf3, be32]
    rw [avccLoop]
    norm_num [is_start_code, hf6, be32]
    rw [avccLoop]
    norm_num
  have hspec :
      avcc_spec_skip_zero [0, 0, 1, 0, 0, 1, 65] = [0, 0, 0, 1, 65] := by
    unfold avcc_spec_skip_zero
    rw [hscan]
    norm_num [be32]
  refine ⟨hav, hspec, ?_⟩
  rw [hav, hspec]
  simp

/-! ## stream::serve_fmp4_live — responder loop state machine

One iteration of the chunked-content provider loop either makes no
progress (`FEvent.skip`: capture not running, no frame yet, unsupported
pixel format, or `encode_i420` failed — the loop just sleeps and
continues) or processes one encoded Annex-B frame (`FEvent.frame nal
initOk fragOk`, where the two booleans are the outcomes of the sink
writes the iteration may perform).  The state mirrors the provider's
locals: the sps/pps copies, whether the fragmenter exists, `sent_init`,
`seqno` (a `uint32_t` starting at 1), `decode_time` (a `uint64_t`), plus
the observables: the sequence numbers passed to `build_fragment` and the
byte groups successfully written to the sink (abstracted to tags). -/

inductive FEvent where
  | skip : FEvent
  | frame : List Nat → Bool → Bool → FEvent

inductive FOut where
  | initSeg : FOut
  | frag : Nat → FOut

structure FState where
  sps : List Nat
  pps : List Nat
  muxReady : Bool
  sentInit : Bool
  seqno : Nat
  decodeTime : Nat
  callSeqs : List Nat
  outputs : List FOut
  stopped : Bool

/-- The tail of a frame iteration once the fragmenter exists and the init
segment is on the wire: `build_fragment(avcc, seqno++, decode_time, ...)`
is called (recording the passed sequence number), `decode_time` advances,
and the fragment write either succeeds or ends the responder. -/
def fmp4_frag_call (sd : Nat) (fragOk : Bool) (st : FState) : FState :=
  let s := st.seqno
  let st2 := { st with
    callSeqs := st.callSeqs ++ [s],
    seqno := (s + 1) % 2 ^ 32,
    decodeTime := (st.decodeTime + sd) % 2 ^ 64 }
  if fragOk then { st2 with outputs := st2.outputs ++ [FOut.frag s] }
  else { st2 with stopped := true }

/-- One iteration of the serve_fmp4_live provider loop. -/
def fmp4_step (sd : Nat) (st : FState) (e : FEvent) : FState :=
  if st.stopped then st
  else
    match e with
    | FEvent.skip => st
    | FEvent.frame nal initOk fragOk =>
      let sp :=
        if st.sps.isEmpty || st.pps.isEmpty then
          extract_sps_pps nal st.sps st.pps
        else (st.sps, st.pps)
      let ready := st.muxReady || (!sp.1.isEmpty && !sp.2.isEmpty)
      let st1 := { st with sps := sp.1, pps := sp.2, muxReady := ready }
      if !ready then st1
      else if !st1.sentInit then
        if initOk then
          fmp4_frag_call sd fragOk
            { st1 with
              sentInit := true, outputs := st1.outputs ++ [FOut.initSeg] }
        else { st1 with stopped := true }
      else fmp4_frag_call sd fragOk st1

/-- Provider-entry state: sps/pps copied from the session, `seqno = 1`,
the fragmenter constructed up front iff both are already nonempty. -/
def fmp4_init_state (sps0 pps0 : List Nat) : FState :=
  { sps := sps0, pps := pps0,
    muxReady := !sps0.isEmpty && !pps0.isEmpty,
    sentInit := false, seqno := 1, decodeTime := 0,
    callSeqs := [], outputs := [], stopped := false }

/-- stream::serve_fmp4_live, as the fold of the loop over its iterations. -/
def serve_fmp4_live (sps0 pps0 : List Nat) (sd : Nat)
    (events : List FEvent) : FState :=
  events.foldl (fmp4_step sd) (fmp4_init_state sps0 pps0)

/-- Internal invariant of the provider loop: the recorded call sequence
numbers are `1, 2, 3, ...` reduced mod `2 ^ 32`, `seqno` is the next one,
and while the loop is running every call's fragment follows a single
leading init segment (when the responder has stopped, a trailing call's
fragment may be missing because its sink write failed). -/
def fmp4InvS (st : FState) : Prop :=
  st.callSeqs =
    (List.range st.callSeqs.length).map (fun i => (1 + i) % 2 ^ 32) ∧
  st.seqno = (1 + st.callSeqs.length) % 2 ^ 32 ∧
  (if st.sentInit then
    (if st.stopped then
      ∃ n, st.outputs = FOut.initSeg :: (st.callSeqs.take n).map FOut.frag
     else st.outputs = FOut.initSeg :: st.callSeqs.map FOut.frag)
   else st.outputs = [] ∧ st.callSeqs = [])

theorem fmp4InvS_init (sps0 pps0 : List Nat) :
    fmp4InvS (fmp4_init_state sps0 pps0) := by
  unfold fmp4InvS fmp4_init_state
  norm_num

theorem fmp4_frag_call_inv (sd : Nat) (fragOk : Bool) (st : FState)
    (h1 : st.callSeqs =
      (List.range st.callSeqs.length).map (fun i => (1 + i) % 2 ^ 32))
    (h2 : st.seqno = (1 + st.callSeqs.length) % 2 ^ 32)
    (h3 : st.outputs = FOut.initSeg :: st.callSeqs.map FOut.frag)
    (hsent : st.sentInit = true) (hrun : st.stopped = false) :
    fmp4InvS (fmp4_frag_call sd fragOk st) := by
  have hA : st.callSeqs ++ [st.seqno] =
      (List.range (st.callSeqs.length + 1)).map
        (fun i => (1 + i) % 2 ^ 32) := by
    rw [List.range_succ, List.map_append, ← h1, h2]
    simp
  have hB : (st.seqno + 1) % 2 ^ 32 =
      (1 + (st.callSeqs.length + 1)) % 2 ^ 32 := by
    rw [h2]
    omega
  cases fragOk with
  | false =>
    refine ⟨?_, ?_, ?_⟩
    · simpa [fmp4_frag_call] using hA
    · simpa [fmp4_frag_call] using hB
    · simp [fmp4_frag_call, hsent, h3]
      refine ⟨st.callSeqs.length, ?_⟩
      have hl : st.callSeqs.length = (st.callSeqs.map FOut.frag).length := by
        simp
      rw [hl, List.take_left]
  | true =>
    refine ⟨?_, ?_, ?_⟩
    · simpa [fmp4_frag_call] using hA
    · simpa [fmp4_frag_call] using hB
    · simp [fmp4_frag_call, hsent, hrun, h3]

theorem fmp4_step_inv (sd : Nat) (st : FState) (e : FEvent)
    (h : fmp4InvS st) : fmp4InvS (fmp4_step sd st e) := by
  obtain ⟨h1, h2, h3⟩ := h
  cases hstop : st.stopped with
  | true =>
    simpa [fmp4_step, hstop] using ⟨h1, h2, h3⟩
  | false =>
    cases e with
    | skip =>
      simpa [fmp4_step, hstop] using ⟨h1, h2, h3⟩
    | frame nal initOk fragOk =>
      rw [hstop] at h3
      unfold fmp4_step
      rw [hstop]
      simp only [Bool.false_eq_true, if_false]
      generalize
        (if st.sps.isEmpty || st.pps.isEmpty then
          extract_sps_pps nal st.sps st.pps
        else (st.sps, st.pps)) = sp
      by_cases hready : (st.muxReady || (!sp.1.isEmpty && !sp.2.isEmpty)) = true
      · rw [hready]
        simp only [Bool.not_true, Bool.false_eq_true, if_false]
        cases hsent : st.sentInit with
        | true =>
          rw [hsent] at h3
          simp only [if_true, ite_true, Bool.false_eq_true, if_false] at h3
          simp only [Bool.not_true, Bool.false_eq_true, if_false]
          exact fmp4_frag_call_inv sd fragOk _ h1 h2 h3 rfl rfl
        | false =>
          rw [hsent] at h3
          simp only [Bool.false_eq_true, if_false] at h3
          simp only [Bool.not_false, if_true, ite_true]
          cases initOk with
          | true =>
            simp only [if_true, ite_true]
            refine fmp4_frag_call_inv sd fragOk _ ?_ ?_ ?_ rfl rfl
            · exact h1
            · exact h2
            · simp [h3.1, h3.2]
          | false =>
            simp only [Bool.false_eq_true, if_false]
            refine ⟨h1, h2, ?_⟩
            simp only [hsent, Bool.false_eq_true, if_false]
            exact h3
      · have hready2 : (st.muxReady || (!sp.1.isEmpty && !sp.2.isEmpty)) =
            false := by
          revert hready
          cases st.muxReady || (!sp.1.isEmpty && !sp.2.isEmpty) <;> simp
        rw [hready2]
        simp only [Bool.not_false, if_true, ite_true]
        exact ⟨h1, h2, h3⟩

theorem fmp4InvS_run (sps0 pps0 : List Nat) (sd : Nat)
    (events : List FEvent) :
    fmp4InvS (serve_fmp4_live sps0 pps0 sd events) := by
  unfold serve_fmp4_live
  have h0 := fmp4InvS_init sps0 pps0
  generalize fmp4_init_state sps0 pps0 = st at h0 ⊢
  induction events generalizing st with
  | nil => simpa using h0
  | cons e tl ih =>
    rw [List.foldl_cons]
    exact ih _ (fmp4_step_inv sd st e h0)

/-- Claim C3 (amended): over any single serve_fmp4_live provider run, the
init segment is written at most once and before any fragment (so exactly
once as soon as any fragment has been emitted: the outputs are either
empty or one init segment followed only by fragments), and the k-th
sequence number passed to build_fragment (k = 0, 1, ...) is
`(1 + k) % 2 ^ 32` — the strictly increasing sequence 1, 2, 3, ... for as
long as fewer than 2 ^ 32 fragments have been produced.  `seqno` is a
`uint32_t`, so after 2 ^ 32 - 1 fragments it wraps to 0 and the sequence
numbers are no longer increasing or fresh. -/
theorem serve_fmp4_live_init_once_and_seq (sps0 pps0 : List Nat) (sd : Nat)
    (events : List FEvent) :
    (serve_fmp4_live sps0 pps0 sd events).callSeqs =
      (List.range (serve_fmp4_live sps0 pps0 sd events).callSeqs.length).map
        (fun i => (1 + i) % 2 ^ 32) ∧
    ((serve_fmp4_live sps0 pps0 sd events).outputs = [] ∨
      ∃ n, (serve_fmp4_live sps0 pps0 sd events).outputs =
        FOut.initSeg ::
          ((serve_fmp4_live sps0 pps0 sd events).callSeqs.take n).map
            FOut.frag) := by
  obtain ⟨h1, h2, h3⟩ := fmp4InvS_run sps0 pps0 sd events
  refine ⟨h1, ?_⟩
  cases hsent : (serve_fmp4_live sps0 pps0 sd events).sentInit with
  | false =>
    rw [hsent] at h3
    simp only [Bool.false_eq_true, if_false] at h3
    exact Or.inl h3.1
  | true =>
    rw [hsent] at h3
    simp only [if_true, ite_true] at h3
    right
    cases hstop : (serve_fmp4_live sps0 pps0 sd events).stopped with
    | true =>
      rw [hstop] at h3
      simpa using h3
    | false =>
      rw [hstop] at h3
      simp only [Bool.false_eq_true, if_false] at h3
      refine ⟨(serve_fmp4_live sps0 pps0 sd events).callSeqs.length, ?_⟩
      rw [List.take_length]
      exact h3

/-- A loop iteration in which a frame is encoded and both sink writes
succeed (capture running, fragmenter ready). -/
def c3_good_event : FEvent := FEvent.frame [] true true

/-- An execution long enough for the `uint32_t` fragment counter to wrap:
2 ^ 32 processed frames. -/
def c3_events : List FEvent := List.replicate (2 ^ 32) c3_good_event

theorem fmp4_run_replicate_length (sd : Nat) :
    ∀ (n : Nat) (st : FState), st.stopped = false →
      st.sps.isEmpty = false → st.pps.isEmpty = false →
      st.muxReady = true →
      ((List.replicate n c3_good_event).foldl
          (fmp4_step sd) st).callSeqs.length = st.callSeqs.length + n := by
  intro n
  induction n with
  | zero =>
    intro st _ _ _ _
    simp
  | succ m ih =>
    intro st hr hsp hpp hmx
    rw [List.replicate_succ, List.foldl_cons]
    have hprops : (fmp4_step sd st c3_good_event).stopped = false ∧
        (fmp4_step sd st c3_good_event).sps.isEmpty = false ∧
        (fmp4_step sd st c3_good_event).pps.isEmpty = false ∧
        (fmp4_step sd st c3_good_event).muxReady = true ∧
        (fmp4_step sd st c3_good_event).callSeqs.length =
          st.callSeqs.length + 1 := by
      cases hsent : st.sentInit <;>
        simp [fmp4_step, c3_good_event, fmp4_frag_call, hr, hsp, hpp, hmx,
          hsent]
    rw [ih _ hprops.1 hprops.2.1 hprops.2.2.1 hprops.2.2.2.1,
      hprops.2.2.2.2]
    omega

/-- Claim C3, counterexample: the sequence numbers passed to
build_fragment are not, for every run, the strictly increasing sequence
1, 2, 3, ...: `seqno` is a `uint32_t`, and in a run that emits 2 ^ 32
fragments (session sps/pps already cached, every write succeeding) the
last call receives sequence number 0, not 2 ^ 32. -/
theorem serve_fmp4_live_seq_wraps :
    (serve_fmp4_live [103] [104] 3000 c3_events).callSeqs ≠
      (List.range
        (serve_fmp4_live [103] [104] 3000 c3_events).callSeqs.length).map
        (fun i => 1 + i) := by
  intro hEq
  obtain ⟨h1, _, _⟩ := fmp4InvS_run [103] [104] 3000 c3_events
  have hlen : (serve_fmp4_live [103] [104] 3000 c3_events).callSeqs.length =
      2 ^ 32 := by
    have hmain := fmp4_run_replicate_length 3000 (2 ^ 32)
      (fmp4_init_state [103] [104]) (by simp [fmp4_init_state])
      (by simp [fmp4_init_state]) (by simp [fmp4_init_state])
      (by simp [fmp4_init_state])
    show ((List.replicate (2 ^ 32) c3_good_event).foldl (fmp4_step 3000)
        (fmp4_init_state [103] [104])).callSeqs.length = 2 ^ 32
    rw [hmain]
    simp [fmp4_init_state]
  have hlt : 2 ^ 32 - 1 < 2 ^ 32 := by norm_num
  have e1 : (serve_fmp4_live [103] [104] 3000 c3_events).callSeqs[2 ^ 32 - 1]?
      = some ((1 + (2 ^ 32 - 1)) % 2 ^ 32) := by
    rw [h1, hlen, List.getElem?_map, List.getElem?_range hlt]
    rfl
  have e2 : (serve_fmp4_live [103] [104] 3000 c3_events).callSeqs[2 ^ 32 - 1]?
      = some (1 + (2 ^ 32 - 1)) := by
    rw [hEq, hlen, List.getElem?_map, List.getElem?_range hlt]
    rfl
  rw [e1] at e2
  have e3 : (1 + (2 ^ 32 - 1)) % 2 ^ 32 = 1 + (2 ^ 32 - 1) :=
    Option.some.inj e2
  omega

/-! ## SessionManager (session_manager.cpp)

The registry is a map from device id to session; here an association list
with the fields the claims touch: `client_count` (an `atomic<int>`) and
`last_accessed` (a steady_clock time point, modelled in nanoseconds).
Stopping the capture has no registry-visible effect beyond the erase, so
eviction is modelled as removal of the entry. -/

structure Sess where
  client_count : Int
  last_accessed : Nat
deriving DecidableEq

abbrev Registry := List (String × Sess)

/-- SessionManager::release_if_idle: if the id is present and the entry's
client_count is 0, stop its capture and erase it; otherwise no change. -/
def release_if_idle (reg : Registry) (id : String) : Registry :=
  reg.filter (fun kv => !(kv.1 == id && kv.2.client_count == 0))

/-- One sweep of SessionManager::reap_loop: for each entry, compute
`idle_for = duration_cast<seconds>(now - last_accessed)` (integer
truncation) and erase the entry iff `client_count == 0` and
`idle_for > idle_timeout_seconds`. -/
def reap_sweep (reg : Registry) (now : Nat) (timeout : Nat) : Registry :=
  reg.filter (fun kv =>
    !(kv.2.client_count == 0 &&
      decide ((now - kv.2.last_accessed) / 1000000000 > timeout)))

/-- Claim C4: a session is removed from the registry (its capture stopped)
by release_if_idle only if its client_count is 0 at that moment; a reaper
sweep removes it only if additionally now − last_accessed strictly exceeds
the configured idle timeout (in particular idle_for > timeout after
truncation forces the untruncated duration past timeout seconds); and a
session with client_count > 0 is never evicted by either. -/
theorem reaper_evicts_only_idle (reg : Registry) (id : String)
    (now timeout : Nat) (kv : String × Sess) (hmem : kv ∈ reg) :
    (kv ∉ release_if_idle reg id → kv.2.client_count = 0) ∧
    (kv ∉ reap_sweep reg now timeout →
      kv.2.client_count = 0 ∧
        now - kv.2.last_accessed > timeout * 1000000000) ∧
    (0 < kv.2.client_count →
      kv ∈ release_if_idle reg id ∧ kv ∈ reap_sweep reg now timeout) := by
  refine ⟨?_, ?_, ?_⟩
  · intro hnot
    by_contra hne
    apply hnot
    simp [release_if_idle, List.mem_filter, hmem, hne]
  · intro hnot
    by_contra hne
    apply hnot
    simp only [reap_sweep, List.mem_filter]
    refine ⟨hmem, ?_⟩
    simp only [Bool.not_eq_true', Bool.and_eq_false_iff]
    by_cases hc : kv.2.client_count = 0
    · right
      simp only [decide_eq_false_iff_not, gt_iff_lt, not_lt]
      omega
    · left
      simp [hc]
  · intro hpos
    constructor
    · simp only [release_if_idle, List.mem_filter]
      refine ⟨hmem, ?_⟩
      have : kv.2.client_count ≠ 0 := by omega
      simp [this]
    · simp only [reap_sweep, List.mem_filter]
      refine ⟨hmem, ?_⟩
      have : kv.2.client_count ≠ 0 := by omega
      simp [this]

/-- Claim C4, witness: a registry with one session with one client and one
idle session; the busy one survives both operations, and the reaper's
preconditions are checked at a concrete now/timeout. -/
theorem reaper_evicts_only_idle_witness :
    (("video0", Sess.mk 1 0) ∈ ([("video0", Sess.mk 1 0)] : Registry)) ∧
    ("video0", Sess.mk 1 0) ∈
      release_if_idle [("video0", Sess.mk 1 0)] "video0" ∧
    ("video0", Sess.mk 1 0) ∈
      reap_sweep [("video0", Sess.mk 1 0)] 20000000000 10 := by
  refine ⟨by decide, ?_⟩
  exact (reaper_evicts_only_idle [("video0", Sess.mk 1 0)] "video0"
    20000000000 10 ("video0", Sess.mk 1 0) (by decide)).2.2 (by decide)

/-! ## /stream/udp/{device}: early producer-thread failure (main.cpp) -/

/-- SessionManager::get_or_create: lookup under the lock; on a miss insert
a fresh session (client_count 0, last_accessed initialized to now). -/
def get_or_create (reg : Registry) (id : String) (now : Nat) : Registry :=
  if reg.any (fun kv => kv.1 == id) then reg
  else reg ++ [(id, { client_count := 0, last_accessed := now })]

/-- Per-entry effect of the handler prologue on the named session:
`client_count.fetch_add(1); last_accessed = now;`. -/
def attach_entry (id : String) (now : Nat) (kv : String × Sess) :
    String × Sess :=
  if kv.1 = id then
    (kv.1,
      { kv.2 with
          client_count := kv.2.client_count + 1
          last_accessed := now })
  else kv

/-- Per-entry effect of the producer thread's failure epilogue on the
named session: `client_count.fetch_sub(1);`. -/
def detach_entry (id : String) (kv : String × Sess) : String × Sess :=
  if kv.1 = id then
    (kv.1, { kv.2 with client_count := kv.2.client_count - 1 })
  else kv

/-- The handler prologue shared by the stream routes: `get_or_create`,
then increment and touch the named session. -/
def udp_attach (reg : Registry) (id : String) (now : Nat) : Registry :=
  (get_or_create reg id now).map (attach_entry id now)

inductive UdpEarlyFailure where
  | socketFail : UdpEarlyFailure
  | ptonFail : UdpEarlyFailure

/-- The two early-failure paths of the detached UDP producer thread:
`socket(AF_INET, SOCK_DGRAM, 0) < 0`, or `inet_pton(...) != 1` (the
latter after closing the socket).  Both run
`client_count.fetch_sub(1); release_if_idle(device_id); return;`. -/
def udp_thread_early_fail (reg : Registry) (id : String)
    (k : UdpEarlyFailure) : Registry :=
  match k with
  | UdpEarlyFailure.socketFail =>
    release_if_idle (reg.map (detach_entry id)) id
  | UdpEarlyFailure.ptonFail =>
    release_if_idle (reg.map (detach_entry id)) id

/-- A /stream/udp request whose producer thread fails before streaming:
the handler attaches (increment), the thread decrements and releases. -/
def udp_request_early_failure (reg : Registry) (id : String) (now : Nat)
    (k : UdpEarlyFailure) : Registry :=
  udp_thread_early_fail (udp_attach reg id now) id k

theorem release_if_idle_no_zero (reg : Registry) (id : String) (s : Sess)
    (hz : s.client_count = 0) : (id, s) ∉ release_if_idle reg id := by
  intro hmem
  have h := (List.mem_filter.mp hmem).2
  simp [hz] at h

theorem mem_get_or_create (reg : Registry) (id : String) (now : Nat)
    (kv : String × Sess) (h : kv ∈ reg) : kv ∈ get_or_create reg id now := by
  unfold get_or_create
  split
  · exact h
  · exact List.mem_append_left _ h

/-- Claim C10: if the detached UDP producer thread fails before streaming
begins (UDP socket creation fails, or the target address does not parse
with inet_pton), the thread decrements the session's client_count exactly
once and calls release_if_idle, so the session's client_count returns to
its value from before the request.  Formally, for both failure kinds:
sessions of other devices are untouched; a pre-existing session of the
device with nonzero client count survives with its exact pre-request
client count (only last_accessed refreshed); the final registry never
retains a session of the device with client count 0 (so a pre-existing
drained session is released, not left elevated); and a session created by
the failing request itself is removed again. -/
theorem udp_early_failure_restores_client_count (reg : Registry)
    (id : String) (now : Nat) (k : UdpEarlyFailure) :
    (∀ kv ∈ reg, kv.1 ≠ id →
      kv ∈ udp_request_early_failure reg id now k) ∧
    (∀ kv ∈ reg, kv.1 = id → kv.2.client_count ≠ 0 →
      (id, { kv.2 with last_accessed := now }) ∈
        udp_request_early_failure reg id now k) ∧
    (∀ s : Sess, s.client_count = 0 →
      (id, s) ∉ udp_request_early_failure reg id now k) ∧
    ((∀ kv ∈ reg, kv.1 ≠ id) →
      ∀ kv2 ∈ udp_request_early_failure reg id now k, kv2.1 ≠ id) := by
  have hsame : udp_request_early_failure reg id now k =
      release_if_idle ((udp_attach reg id now).map (detach_entry id)) id := by
    cases k <;> rfl
  refine ⟨?_, ?_, ?_, ?_⟩
  · intro kv hkv hne
    rw [hsame]
    refine List.mem_filter.mpr ⟨?_, ?_⟩
    · refine List.mem_map.mpr ⟨kv, ?_, by simp [detach_entry, hne]⟩
      exact List.mem_map.mpr
        ⟨kv, mem_get_or_create reg id now kv hkv, by simp [attach_entry, hne]⟩
    · simp [hne]
  · intro kv hkv heq hcnt
    rw [hsame]
    refine List.mem_filter.mpr ⟨?_, ?_⟩
    · refine List.mem_map.mpr
        ⟨(id,
          { kv.2 with
              client_count := kv.2.client_count + 1
              last_accessed := now }), ?_, ?_⟩
      · refine List.mem_map.mpr
          ⟨kv, mem_get_or_create reg id now kv hkv, ?_⟩
        simp [attach_entry, heq]
      · simp [detach_entry]
    · simp [hcnt]
  · intro s hz
    rw [hsame]
    exact release_if_idle_no_zero _ id s hz
  · intro hall kv2 hkv2
    rw [hsame] at hkv2
    obtain ⟨hmem2, hpred⟩ := List.mem_filter.mp hkv2
    obtain ⟨kv1, hkv1, hdec⟩ := List.mem_map.mp hmem2
    obtain ⟨kv0, hkv0, hatt⟩ := List.mem_map.mp hkv1
    have hany : (reg.any (fun kv => kv.1 == id)) = false := by
      rw [List.any_eq_false]
      intro kv hkv
      simpa using hall kv hkv
    unfold get_or_create at hkv0
    rw [hany] at hkv0
    simp only [Bool.false_eq_true, if_false] at hkv0
    rcases List.mem_append.mp hkv0 with h0 | h0
    · have hne0 := hall kv0 h0
      rw [← hatt] at hdec
      rw [← hdec]
      simp [attach_entry, detach_entry, hne0]
    · have h00 : kv0 = (id, { client_count := 0, last_accessed := now }) := by
        simpa using h0
      subst h00
      rw [← hatt] at hdec
      simp [attach_entry, detach_entry] at hdec
      rw [← hdec] at hpred
      simp at hpred

/-- Claim C10, witness: on a registry holding device video0 with two
clients, a socket-failure request leaves the session with client count 2
(last_accessed refreshed to the request time 7); a pton-failure request
for an absent device cam1 leaves no zero-client cam1 session behind. -/
theorem udp_early_failure_restores_client_count_witness :
    ("video0", Sess.mk 2 7) ∈
      udp_request_early_failure [("video0", Sess.mk 2 5)] "video0" 7
        UdpEarlyFailure.socketFail ∧
    ("cam1", Sess.mk 0 7) ∉
      udp_request_early_failure [("video0", Sess.mk 2 5)] "cam1" 7
        UdpEarlyFailure.ptonFail := by
  constructor
  · exact (udp_early_failure_restores_client_count
      [("video0", Sess.mk 2 5)] "video0" 7 UdpEarlyFailure.socketFail).2.1
      ("video0", Sess.mk 2 5) (by simp) rfl (by decide)
  · exact (udp_early_failure_restores_client_count
      [("video0", Sess.mk 2 5)] "cam1" 7 UdpEarlyFailure.ptonFail).2.2.1
      (Sess.mk 0 7) rfl

/-! ## /stream/{id}/feedback (spec §4.7; not present under src/) -/

/-- Modelled from the spec: the sources under src/ contain no
/stream/{id}/feedback handler and no idr_request_seq session field; only
the spec (§3 data model, §4.7 request handlers, §6 HTTP surface)
describes them.  Following its words — "look up the session; increment
idr_request_seq; respond 200.  Unknown types respond 400.  Missing
session responds 404." — the registry is abstracted to the map from
device id to that session's idr_request_seq counter, and the handler
returns the HTTP status with the updated registry. -/
def handle_feedback (reg : List (String × Nat)) (id ty : String) :
    Nat × List (String × Nat) :=
  match reg.find? (fun kv => kv.1 == id) with
  | none => (404, reg)
  | some _ =>
    if ty = "idr" then
      (200, reg.map (fun kv => if kv.1 = id then (kv.1, kv.2 + 1) else kv))
    else (400, reg)

/-- Claim C5: POST /stream/{id}/feedback with type=idr on an existing
session increments the session's idr_request_seq and responds 200; any
other type value on an existing session responds 400 (no change); a
device with no registered session responds 404 (no change). -/
theorem handle_feedback_spec (reg : List (String × Nat)) (id ty : String) :
    (reg.find? (fun kv => kv.1 == id) = none →
      handle_feedback reg id ty = (404, reg)) ∧
    ((reg.find? (fun kv => kv.1 == id)).isSome →
      (handle_feedback reg id "idr").1 = 200 ∧
      ∀ kv ∈ reg, kv.1 = id →
        (kv.1, kv.2 + 1) ∈ (handle_feedback reg id "idr").2) ∧
    ((reg.find? (fun kv => kv.1 == id)).isSome → ty ≠ "idr" →
      handle_feedback reg id ty = (400, reg)) := by
  refine ⟨?_, ?_, ?_⟩
  · intro hnone
    unfold handle_feedback
    rw [hnone]
  · intro hsome
    obtain ⟨kv0, hkv0⟩ := Option.isSome_iff_exists.mp hsome
    unfold handle_feedback
    rw [hkv0]
    simp only [if_pos rfl, ite_true]
    refine ⟨by trivial, ?_⟩
    intro kv hkv heq
    refine List.mem_map.mpr ⟨kv, hkv, ?_⟩
    simp [heq]
  · intro hsome hne
    obtain ⟨kv0, hkv0⟩ := Option.isSome_iff_exists.mp hsome
    unfold handle_feedback
    rw [hkv0]
    simp [hne]

/-- Claim C5, witness: with one registered session video0 at counter 3,
type=idr responds 200 and bumps the counter to 4; type=bogus responds
400 unchanged; an absent device cam9 responds 404 unchanged. -/
theorem handle_feedback_spec_witness :
    (handle_feedback [("video0", 3)] "video0" "idr").1 = 200 ∧
    ("video0", 4) ∈ (handle_feedback [("video0", 3)] "video0" "idr").2 ∧
    handle_feedback [("video0", 3)] "video0" "bogus" =
      (400, [("video0", 3)]) ∧
    handle_feedback [("video0", 3)] "cam9" "idr" =
      (404, [("video0", 3)]) := by
  refine ⟨?_, ?_, ?_, ?_⟩
  · exact ((handle_feedback_spec [("video0", 3)] "video0" "idr").2.1
      (by decide)).1
  · exact ((handle_feedback_spec [("video0", 3)] "video0" "idr").2.1
      (by decide)).2 ("video0", 3) (by decide) rfl
  · exact (handle_feedback_spec [("video0", 3)] "video0" "bogus").2.2
      (by decide) (by decide)
  · exact (handle_feedback_spec [("video0", 3)] "cam9" "idr").1 (by decide)

/-! ## UDP datagram layout (/stream/udp handler producer loop) -/

def mtu : Nat := 1400

/-- The h264 branch of the UDP producer loop: prepend the 4-byte Annex-B
start code to the encoder output and send the whole packet with a single
sendto call — no application header, no splitting. -/
def udp_h264_datagrams (nal : List Nat) : List (List Nat) :=
  [[0, 0, 0, 1] ++ nal]

/-- The mjpeg branch: `while (offset < frame.size()) { chunk = min(mtu,
size - offset); sendto(frame[offset, offset+chunk)); offset += chunk; }`. -/
def udp_mjpeg_split (frame : List Nat) (offset : Nat) : List (List Nat) :=
  if offset < frame.length then
    ((frame.drop offset).take (min mtu (frame.length - offset))) ::
      udp_mjpeg_split frame (offset + min mtu (frame.length - offset))
  else []
termination_by frame.length - offset
decreasing_by
  have hm : mtu = 1400 := rfl
  omega

def udp_mjpeg_datagrams (frame : List Nat) : List (List Nat) :=
  udp_mjpeg_split frame 0

/-- Claim C6, counterexample: in the h264 UDP path no fixed-layout header
is added and no fragmentation occurs: a 1400-byte encoded frame goes out
as one 1404-byte datagram, which already exceeds the 1400-byte MTU — so
a fortiori the datagrams are not bounded by MTU − header_size. -/
theorem udp_h264_no_fragmentation :
    ∃ d ∈ udp_h264_datagrams (List.replicate 1400 0), mtu < d.length := by
  have hd : udp_h264_datagrams (List.replicate 1400 0) =
      [[0, 0, 0, 1] ++ List.replicate 1400 0] := rfl
  rw [hd]
  refine ⟨[0, 0, 0, 1] ++ List.replicate 1400 0, List.mem_singleton.mpr rfl, ?_⟩
  have hl : (([0, 0, 0, 1] ++ List.replicate 1400 0) : List Nat).length =
      1404 := by
    rw [List.length_append, List.length_replicate]
    rfl
  rw [hl]
  norm_num [mtu]

theorem udp_mjpeg_split_flatten (frame : List Nat) (offset : Nat) :
    (udp_mjpeg_split frame offset).flatten = frame.drop offset := by
  unfold udp_mjpeg_split
  split
  · simp only [List.flatten_cons]
    rw [udp_mjpeg_split_flatten frame
      (offset + min mtu (frame.length - offset))]
    have hdd : frame.drop (offset + min mtu (frame.length - offset)) =
        (frame.drop offset).drop (min mtu (frame.length - offset)) := by
      rw [List.drop_drop, Nat.add_comm]
    rw [hdd, List.take_append_drop]
  · rw [List.drop_eq_nil_of_le (by omega)]
    simp
termination_by frame.length - offset
decreasing_by
  have hm : mtu = 1400 := rfl
  omega

theorem udp_mjpeg_split_chunk_le (frame : List Nat) (offset : Nat) :
    ∀ d ∈ udp_mjpeg_split frame offset, d.length ≤ mtu := by
  unfold udp_mjpeg_split
  split
  · intro d hd
    rcases List.mem_cons.mp hd with h | h
    · subst h
      calc ((frame.drop offset).take
            (min mtu (frame.length - offset))).length
          ≤ min mtu (frame.length - offset) := List.length_take_le _ _
        _ ≤ mtu := Nat.min_le_left _ _
    · exact udp_mjpeg_split_chunk_le frame _ d h
  · intro d hd
    simp at hd
termination_by frame.length - offset
decreasing_by
  have hm : mtu = 1400 := rfl
  omega

/-- Claim C6 (amended): in the UDP streaming path with codec h264, every
encoded frame is sent as exactly one datagram holding the 4-byte Annex-B
start code followed by the whole encoder output — there is no
fixed-layout header and no fragmentation (the frame_id/frag_id header
exists nowhere in the sources).  Only the MJPEG branch splits: its
datagrams are each at most MTU (1400) bytes and concatenate back to the
frame. -/
theorem udp_datagram_layout (nal frame : List Nat) :
    udp_h264_datagrams nal = [[0, 0, 0, 1] ++ nal] ∧
    (udp_mjpeg_datagrams frame).flatten = frame ∧
    ∀ d ∈ udp_mjpeg_datagrams frame, d.length ≤ mtu :=
  ⟨rfl, by simpa using udp_mjpeg_split_flatten frame 0,
    udp_mjpeg_split_chunk_le frame 0⟩

/-- Claim C6 (amended), witness: concrete frames through both branches. -/
theorem udp_datagram_layout_witness :
    udp_h264_datagrams [7] = [[0, 0, 0, 1, 7]] ∧
    (udp_mjpeg_datagrams [9, 9]).flatten = [9, 9] ∧
    ([9, 9] : List Nat).length ≤ mtu := by
  have hmem : [9, 9] ∈ udp_mjpeg_datagrams [9, 9] := by
    unfold udp_mjpeg_datagrams
    rw [udp_mjpeg_split]
    norm_num [mtu]
  refine ⟨?_, ?_, ?_⟩
  · simpa using (udp_datagram_layout [7] [9, 9]).1
  · exact (udp_datagram_layout [7] [9, 9]).2.1
  · exact (udp_datagram_layout [7] [9, 9]).2.2 [9, 9] hmem

/-! ## Parameter parsing and the latency preset (stream_utils.cpp) -/

/-- CaptureParams (types.hpp), with the fields the handlers read. -/
structure CaptureParams where
  width : Int
  height : Int
  fps : Int
  bitrate_kbps : Int
  quality : Int
  gop : Int
  codec : String
  latency : String
  container : String
deriving DecidableEq

/-- stream::apply_latency_preset: when latency is "zerolatency", rewrite
codec (empty or mjpeg become h264), force a raw container when mp4 was
requested, set gop to 1, floor the bitrate at 512, and set latency to
"ultra"; otherwise leave the parameters alone. -/
def apply_latency_preset (p : CaptureParams) : CaptureParams :=
  if p.latency = "zerolatency" then
    { p with
        codec := if p.codec = "" ∨ p.codec = "mjpeg" then "h264" else p.codec
        container := if p.container = "mp4" then "raw" else p.container
        gop := 1
        bitrate_kbps :=
          if p.bitrate_kbps < 512 then 512 else p.bitrate_kbps
        latency := "ultra" }
  else p

/-- A zerolatency parameter set whose client-requested codec and container
are neither of the values the rewrite looks for. -/
def c7_params : CaptureParams :=
  { width := 640, height := 480, fps := 15, bitrate_kbps := 256,
    quality := 80, gop := 30, codec := "av1", latency := "zerolatency",
    container := "mkv" }

/-- Claim C7, counterexample: the latency-preset rewrite does not force
codec "h264" and container "raw" for every requested value: a request
with latency=zerolatency, codec=av1, container=mkv keeps codec "av1" and
container "mkv" (the code rewrites the codec only from ""/"mjpeg" and the
container only from "mp4"). -/
theorem apply_latency_preset_keeps_unknown_codec :
    (apply_latency_preset c7_params).codec = "av1" ∧
    (apply_latency_preset c7_params).container = "mkv" ∧
    ¬((apply_latency_preset c7_params).codec = "h264" ∧
      (apply_latency_preset c7_params).container = "raw") := by
  decide

/-- Claim C7 (amended): for every parsed parameter set with latency
"zerolatency", the rewrite sets gop to 1, latency to "ultra" and floors
the bitrate at 512 kbps; the codec becomes "h264" exactly when the
requested codec was empty, "mjpeg" or already "h264" (any other codec
string is left unchanged), and the container becomes "raw" exactly when
the requested container was "mp4" or already "raw" (any other container
string is left unchanged); width, height, fps and quality are untouched. -/
theorem apply_latency_preset_zerolatency (p : CaptureParams)
    (h : p.latency = "zerolatency") :
    (apply_latency_preset p).gop = 1 ∧
    (apply_latency_preset p).latency = "ultra" ∧
    (apply_latency_preset p).bitrate_kbps = max 512 p.bitrate_kbps ∧
    ((p.codec = "" ∨ p.codec = "mjpeg" ∨ p.codec = "h264") →
      (apply_latency_preset p).codec = "h264") ∧
    ((p.codec = "" ∨ p.codec = "mjpeg") = False →
      (apply_latency_preset p).codec = p.codec) ∧
    ((p.container = "mp4" ∨ p.container = "raw") →
      (apply_latency_preset p).container = "raw") ∧
    (p.container ≠ "mp4" → (apply_latency_preset p).container = p.container) ∧
    (apply_latency_preset p).width = p.width ∧
    (apply_latency_preset p).height = p.height ∧
    (apply_latency_preset p).fps = p.fps ∧
    (apply_latency_preset p).quality = p.quality := by
  unfold apply_latency_preset
  rw [if_pos h]
  refine ⟨rfl, rfl, ?_, ?_, ?_, ?_, ?_, rfl, rfl, rfl, rfl⟩
  · dsimp only
    split <;> omega
  · intro hc
    rcases hc with hc | hc | hc <;> simp [hc]
  · intro hc
    rw [eq_iff_iff, iff_false] at hc
    simp [hc]
  · intro hc
    rcases hc with hc | hc <;> simp [hc]
  · intro hc
    simp [hc]

/-- A zerolatency parameter set exercising the rewrites: mjpeg codec,
mp4 container, 100 kbps. -/
def c7w_params : CaptureParams :=
  { width := 1280, height := 720, fps := 30, bitrate_kbps := 100,
    quality := 80, gop := 30, codec := "mjpeg", latency := "zerolatency",
    container := "mp4" }

/-- Claim C7 (amended), witness. -/
theorem apply_latency_preset_zerolatency_witness :
    (apply_latency_preset c7w_params).gop = 1 ∧
    (apply_latency_preset c7w_params).latency = "ultra" ∧
    (apply_latency_preset c7w_params).bitrate_kbps = 512 ∧
    (apply_latency_preset c7w_params).codec = "h264" ∧
    (apply_latency_preset c7w_params).container = "raw" := by
  have h := apply_latency_preset_zerolatency c7w_params rfl
  exact ⟨h.1, h.2.1, h.2.2.1, h.2.2.2.1 (Or.inr (Or.inl rfl)),
    h.2.2.2.2.2.1 (Or.inl rfl)⟩

/-! ## The serve_fmp4_live keyframe test (stream_utils.cpp line 636) -/

/-- The keyframe test
`bool keyframe = !nal_annexb.empty() && ((nal_annexb[4] & 0x1F) == 5);`
made total: the byte-4 read returns none when index 4 is out of bounds
(the C++ `operator[]` past the string size is undefined there). -/
def fmp4_keyframe_check (nal : List Nat) : Option Bool :=
  if nal.isEmpty then some false
  else
    match nal[4]? with
    | some b => some (b % 32 == 5)
    | none => none

/-- Claim C9: the keyframe test reads byte index 4 of the encoder output
guarded only by nonemptiness, so for every output of length 1..4 the read
is out of bounds (the total embedding hits its error branch); outputs of
length at least 5 are read in bounds. -/
theorem fmp4_keyframe_check_oob (nal : List Nat) :
    (1 ≤ nal.length → nal.length ≤ 4 → fmp4_keyframe_check nal = none) ∧
    (5 ≤ nal.length →
      fmp4_keyframe_check nal = some ((nal.getD 4 0) % 32 == 5)) := by
  constructor
  · intro h1 h4
    have hne : nal ≠ [] := by
      intro hh
      subst hh
      simp at h1
    unfold fmp4_keyframe_check
    rw [if_neg (by simpa [List.isEmpty_iff] using hne)]
    rw [List.getElem?_eq_none (by omega)]
  · intro h5
    have hne : nal ≠ [] := by
      intro hh
      subst hh
      simp at h5
    unfold fmp4_keyframe_check
    rw [if_neg (by simpa [List.isEmpty_iff] using hne)]
    have hlt : 4 < nal.length := by omega
    rw [List.getElem?_eq_getElem hlt]
    rw [List.getD_eq_getElem nal 0 hlt]

/-- Claim C9, witness: a 3-byte encoder output trips the out-of-bounds
branch; a 5-byte IDR NAL is classified as a keyframe. -/
theorem fmp4_keyframe_check_oob_witness :
    fmp4_keyframe_check [101, 2, 3] = none ∧
    fmp4_keyframe_check [101, 2, 3, 4, 5] = some ((5 : Nat) % 32 == 5) := by
  constructor
  · exact (fmp4_keyframe_check_oob [101, 2, 3]).1 (by decide) (by decide)
  · exact (fmp4_keyframe_check_oob [101, 2, 3, 4, 5]).2 (by decide)

/-! ## yuyv_to_i420 (yuv_convert.hpp)

The destination planes are modelled as functions from byte index to byte
value; each assignment of the C++ loops becomes a pointwise functional
update (the if-chains test in reverse assignment order, so a colliding
later write wins exactly as in sequential execution).  The source buffer
is the read function `src`; the claim's precondition that the buffer
holds exactly `w*h*2` bytes makes every read below in bounds. -/

structure I420Planes where
  dst_y : Nat → Nat
  dst_u : Nat → Nat
  dst_v : Nat → Nat

/-- Body of the inner loop for the 2x2 block at (row y, col x): copy the
four luma bytes from the even bytes of the YUYV pairs and write one U and
one V sample, averaging the +1 (resp. +3) chroma byte of the pair at
column x in row y with the byte at the same offset in row y+1. -/
def yuyv_block (src : Nat → Nat) (w y x : Nat) (p : I420Planes) :
    I420Planes :=
  let row1 := fun j => src (y * w * 2 + j)
  let row2 := fun j => src ((y + 1) * w * 2 + j)
  { dst_y := fun i =>
      if i = (y + 1) * w + (x + 1) then row2 (2 * x + 2)
      else if i = (y + 1) * w + x then row2 (2 * x)
      else if i = y * w + (x + 1) then row1 (2 * x + 2)
      else if i = y * w + x then row1 (2 * x)
      else p.dst_y i
    dst_u := fun i =>
      if i = y / 2 * (w / 2) + x / 2 then
        (row1 (2 * x + 1) + row2 (2 * x + 1)) / 2
      else p.dst_u i
    dst_v := fun i =>
      if i = y / 2 * (w / 2) + x / 2 then
        (row1 (2 * x + 3) + row2 (2 * x + 3)) / 2
      else p.dst_v i }

/-- The inner loop `for (x = 0; x < width; x += 2)`. -/
def yuyv_cols (src : Nat → Nat) (w y : Nat) (x : Nat) (p : I420Planes) :
    I420Planes :=
  if x < w then yuyv_cols src w y (x + 2) (yuyv_block src w y x p) else p
termination_by w - x
decreasing_by omega

/-- The outer loop `for (y = 0; y < height; y += 2)`. -/
def yuyv_rows (src : Nat → Nat) (w h : Nat) (y : Nat) (p : I420Planes) :
    I420Planes :=
  if y < h then yuyv_rows src w h (y + 2) (yuyv_cols src w y 0 p) else p
termination_by h - y
decreasing_by omega

/-- yuyv_to_i420 (yuv_convert.hpp): both loops from 0. -/
def yuyv_to_i420 (src : Nat → Nat) (w h : Nat) (p : I420Planes) :
    I420Planes :=
  yuyv_rows src w h 0 p

theorem yuyv_cols_y_frame (src : Nat → Nat) (w y x : Nat) (p : I420Planes)
    (hw : w % 2 = 0) (hx : x % 2 = 0) (i : Nat)
    (hi : ∀ c, x ≤ c → c < w → i ≠ y * w + c ∧ i ≠ (y + 1) * w + c) :
    (yuyv_cols src w y x p).dst_y i = p.dst_y i := by
  unfold yuyv_cols
  split
  · rename_i hxw
    rw [yuyv_cols_y_frame src w y (x + 2) (yuyv_block src w y x p) hw
      (by omega) i (fun c h1 h2 => hi c (by omega) h2)]
    have h1 := hi x (by omega) (by omega)
    have h2 := hi (x + 1) (by omega) (by omega)
    dsimp only [yuyv_block]
    rw [if_neg h2.2, if_neg h1.2, if_neg h2.1, if_neg h1.1]
  · rfl
termination_by w - x
decreasing_by omega

theorem yuyv_cols_y_eq (src : Nat → Nat) (w y x : Nat) (p : I420Planes)
    (hw : w % 2 = 0) (hx : x % 2 = 0) (c : Nat) (hc1 : x ≤ c)
    (hc2 : c < w) :
    (yuyv_cols src w y x p).dst_y (y * w + c) = src (y * w * 2 + 2 * c) ∧
    (yuyv_cols src w y x p).dst_y ((y + 1) * w + c) =
      src ((y + 1) * w * 2 + 2 * c) := by
  have hxw : x < w := by omega
  have hexp : (y + 1) * w = y * w + w := by ring
  unfold yuyv_cols
  rw [if_pos hxw]
  by_cases hcx : c < x + 2
  · have hfr : ∀ i,
        (∀ c2, x + 2 ≤ c2 → c2 < w →
          i ≠ y * w + c2 ∧ i ≠ (y + 1) * w + c2) →
        (yuyv_cols src w y (x + 2) (yuyv_block src w y x p)).dst_y i =
          (yuyv_block src w y x p).dst_y i :=
      fun i hhi =>
        yuyv_cols_y_frame src w y (x + 2) _ hw (by omega) i hhi
    have hcc : c = x ∨ c = x + 1 := by omega
    constructor
    · rw [hfr (y * w + c) (fun c2 h1 h2 => ⟨by omega, by omega⟩)]
      dsimp only [yuyv_block]
      rcases hcc with rfl | rfl
      · rw [if_neg (by omega), if_neg (by omega), if_neg (by omega),
          if_pos rfl]
      · rw [if_neg (by omega), if_neg (by omega), if_pos rfl]
        exact congrArg src (by omega)
    · rw [hfr ((y + 1) * w + c) (fun c2 h1 h2 => ⟨by omega, by omega⟩)]
      dsimp only [yuyv_block]
      rcases hcc with rfl | rfl
      · rw [if_neg (by omega), if_pos rfl]
      · rw [if_pos rfl]
        exact congrArg src (by omega)
  · exact yuyv_cols_y_eq src w y (x + 2) (yuyv_block src w y x p) hw
      (by omega) c (by omega) hc2
termination_by w - x
decreasing_by omega

theorem yuyv_cols_uv_frame (src : Nat → Nat) (w y x : Nat) (p : I420Planes)
    (hw : w % 2 = 0) (hx : x % 2 = 0) (i : Nat)
    (hi : ∀ j, x / 2 ≤ j → j < w / 2 → i ≠ y / 2 * (w / 2) + j) :
    (yuyv_cols src w y x p).dst_u i = p.dst_u i ∧
    (yuyv_cols src w y x p).dst_v i = p.dst_v i := by
  unfold yuyv_cols
  split
  · rename_i hxw
    have hrec := yuyv_cols_uv_frame src w y (x + 2) (yuyv_block src w y x p)
      hw (by omega) i (fun j h1 h2 => hi j (by omega) h2)
    have hblk := hi (x / 2) (by omega) (by omega)
    refine ⟨?_, ?_⟩
    · rw [hrec.1]
      dsimp only [yuyv_block]
      rw [if_neg hblk]
    · rw [hrec.2]
      dsimp only [yuyv_block]
      rw [if_neg hblk]
  · exact ⟨rfl, rfl⟩
termination_by w - x
decreasing_by omega

theorem yuyv_cols_uv_eq (src : Nat → Nat) (w y x : Nat) (p : I420Planes)
    (hw : w % 2 = 0) (hx : x % 2 = 0) (bx : Nat) (hb1 : x / 2 ≤ bx)
    (hb2 : bx < w / 2) :
    (yuyv_cols src w y x p).dst_u (y / 2 * (w / 2) + bx) =
      (src (y * w * 2 + (4 * bx + 1)) +
        src ((y + 1) * w * 2 + (4 * bx + 1))) / 2 ∧
    (yuyv_cols src w y x p).dst_v (y / 2 * (w / 2) + bx) =
      (src (y * w * 2 + (4 * bx + 3)) +
        src ((y + 1) * w * 2 + (4 * bx + 3))) / 2 := by
  have hxw : x < w := by omega
  unfold yuyv_cols
  rw [if_pos hxw]
  by_cases hbx : bx = x / 2
  · subst hbx
    have hfr := yuyv_cols_uv_frame src w y (x + 2) (yuyv_block src w y x p)
      hw (by omega) (y / 2 * (w / 2) + x / 2)
      (fun j h1 h2 => by omega)
    refine ⟨?_, ?_⟩
    · rw [hfr.1]
      dsimp only [yuyv_block]
      rw [if_pos rfl]
      have e1 : y * w * 2 + (2 * x + 1) = y * w * 2 + (4 * (x / 2) + 1) := by
        omega
      have e2 : (y + 1) * w * 2 + (2 * x + 1) =
          (y + 1) * w * 2 + (4 * (x / 2) + 1) := by
        omega
      rw [e1, e2]
    · rw [hfr.2]
      dsimp only [yuyv_block]
      rw [if_pos rfl]
      have e1 : y * w * 2 + (2 * x + 3) = y * w * 2 + (4 * (x / 2) + 3) := by
        omega
      have e2 : (y + 1) * w * 2 + (2 * x + 3) =
          (y + 1) * w * 2 + (4 * (x / 2) + 3) := by
        omega
      rw [e1, e2]
  · exact yuyv_cols_uv_eq src w y (x + 2) (yuyv_block src w y x p) hw
      (by omega) bx (by omega) hb2
termination_by w - x
decreasing_by omega

theorem yuyv_rows_y_frame (src : Nat → Nat) (w h y : Nat) (p : I420Planes)
    (hw : w % 2 = 0) (hh : h % 2 = 0) (hy : y % 2 = 0) (i : Nat)
    (hi : ∀ r c, y ≤ r → r < h → c < w → i ≠ r * w + c) :
    (yuyv_rows src w h y p).dst_y i = p.dst_y i := by
  unfold yuyv_rows
  split
  · rename_i hyh
    rw [yuyv_rows_y_frame src w h (y + 2) (yuyv_cols src w y 0 p) hw hh
      (by omega) i (fun r c h1 h2 h3 => hi r c (by omega) h2 h3)]
    exact yuyv_cols_y_frame src w y 0 p hw rfl i
      (fun c h1 h2 => ⟨hi y c (by omega) (by omega) h2,
        hi (y + 1) c (by omega) (by omega) h2⟩)
  · rfl
termination_by h - y
decreasing_by omega

theorem yuyv_rows_y_eq (src : Nat → Nat) (w h y : Nat) (p : I420Planes)
    (hw : w % 2 = 0) (hh : h % 2 = 0) (hy : y % 2 = 0) (r c : Nat)
    (hr1 : y ≤ r) (hr2 : r < h) (hc : c < w) :
    (yuyv_rows src w h y p).dst_y (r * w + c) = src (r * w * 2 + 2 * c) := by
  have hyh : y < h := by omega
  unfold yuyv_rows
  rw [if_pos hyh]
  by_cases hry : r < y + 2
  · have hfr : (yuyv_rows src w h (y + 2)
        (yuyv_cols src w y 0 p)).dst_y (r * w + c) =
        (yuyv_cols src w y 0 p).dst_y (r * w + c) := by
      refine yuyv_rows_y_frame src w h (y + 2) _ hw hh (by omega) _ ?_
      intro r2 c2 h1 h2 h3
      have hm : (r + 1) * w ≤ r2 * w := Nat.mul_le_mul_right w (by omega)
      have he : (r + 1) * w = r * w + w := by ring
      omega
    rw [hfr]
    have hcols := yuyv_cols_y_eq src w y 0 p hw rfl c (by omega) hc
    have hrr : r = y ∨ r = y + 1 := by omega
    rcases hrr with rfl | rfl
    · exact hcols.1
    · exact hcols.2
  · exact yuyv_rows_y_eq src w h (y + 2) (yuyv_cols src w y 0 p) hw hh
      (by omega) r c (by omega) hr2 hc
termination_by h - y
decreasing_by omega

theorem yuyv_rows_uv_frame (src : Nat → Nat) (w h y : Nat) (p : I420Planes)
    (hw : w % 2 = 0) (hh : h % 2 = 0) (hy : y % 2 = 0) (i : Nat)
    (hi : ∀ b j, y / 2 ≤ b → b < h / 2 → j < w / 2 → i ≠ b * (w / 2) + j) :
    (yuyv_rows src w h y p).dst_u i = p.dst_u i ∧
    (yuyv_rows src w h y p).dst_v i = p.dst_v i := by
  unfold yuyv_rows
  split
  · rename_i hyh
    have hrec := yuyv_rows_uv_frame src w h (y + 2) (yuyv_cols src w y 0 p)
      hw hh (by omega) i
      (fun b j h1 h2 h3 => hi b j (by omega) h2 h3)
    have hcols := yuyv_cols_uv_frame src w y 0 p hw rfl i
      (fun j h1 h2 => hi (y / 2) j (by omega) (by omega) h2)
    exact ⟨hrec.1.trans hcols.1, hrec.2.trans hcols.2⟩
  · exact ⟨rfl, rfl⟩
termination_by h - y
decreasing_by omega

theorem yuyv_rows_uv_eq (src : Nat → Nat) (w h y : Nat) (p : I420Planes)
    (hw : w % 2 = 0) (hh : h % 2 = 0) (hy : y % 2 = 0) (bi bx : Nat)
    (hb0 : y / 2 ≤ bi) (hb1 : bi < h / 2) (hb2 : bx < w / 2) :
    (yuyv_rows src w h y p).dst_u (bi * (w / 2) + bx) =
      (src (2 * bi * w * 2 + (4 * bx + 1)) +
        src ((2 * bi + 1) * w * 2 + (4 * bx + 1))) / 2 ∧
    (yuyv_rows src w h y p).dst_v (bi * (w / 2) + bx) =
      (src (2 * bi * w * 2 + (4 * bx + 3)) +
        src ((2 * bi + 1) * w * 2 + (4 * bx + 3))) / 2 := by
  have hyh : y < h := by omega
  unfold yuyv_rows
  rw [if_pos hyh]
  by_cases hby : bi = y / 2
  · subst hby
    have hfr := yuyv_rows_uv_frame src w h (y + 2) (yuyv_cols src w y 0 p)
      hw hh (by omega) (y / 2 * (w / 2) + bx)
      (fun b j h1 h2 h3 => by
        have hm : (y / 2 + 1) * (w / 2) ≤ b * (w / 2) :=
          Nat.mul_le_mul_right (w / 2) (by omega)
        have he : (y / 2 + 1) * (w / 2) = y / 2 * (w / 2) + w / 2 := by ring
        omega)
    have hcols := yuyv_cols_uv_eq src w y 0 p hw rfl bx (by omega) hb2
    have hy2 : 2 * (y / 2) = y := by omega
    rw [hy2]
    exact ⟨hfr.1.trans hcols.1, hfr.2.trans hcols.2⟩
  · exact yuyv_rows_uv_eq src w h (y + 2) (yuyv_cols src w y 0 p) hw hh
      (by omega) bi bx (by omega) hb1 hb2
termination_by h - y
decreasing_by omega

/-- Claim C8: for every even width w and even height h (and source buffer
of w*h*2 bytes, here the read function src), yuyv_to_i420 writes each
output luma sample from the even byte of its YUYV pair
(dst_y[r*w+c] = src[r*w*2 + 2c]), and for each 2x2 block (block row bi,
block column bx) it writes one U and one V sample: U averages the bytes
at offset +1 of the block's pair in row 2*bi and row 2*bi+1, V averages
the bytes at offset +3 — i.e. the code averages the row-1 chroma byte
with the row-2 byte at the same offset, for both U and V. -/
theorem yuyv_to_i420_spec (src : Nat → Nat) (w h : Nat) (p : I420Planes)
    (hw : w % 2 = 0) (hh : h % 2 = 0) :
    (∀ r c, r < h → c < w →
      (yuyv_to_i420 src w h p).dst_y (r * w + c) =
        src (r * w * 2 + 2 * c)) ∧
    (∀ bi bx, bi < h / 2 → bx < w / 2 →
      (yuyv_to_i420 src w h p).dst_u (bi * (w / 2) + bx) =
        (src (2 * bi * w * 2 + (4 * bx + 1)) +
          src ((2 * bi + 1) * w * 2 + (4 * bx + 1))) / 2 ∧
      (yuyv_to_i420 src w h p).dst_v (bi * (w / 2) + bx) =
        (src (2 * bi * w * 2 + (4 * bx + 3)) +
          src ((2 * bi + 1) * w * 2 + (4 * bx + 3))) / 2) := by
  refine ⟨?_, ?_⟩
  · intro r c h1 h2
    exact yuyv_rows_y_eq src w h 0 p hw hh rfl r c (by omega) h1 h2
  · intro bi bx h1 h2
    exact yuyv_rows_uv_eq src w h 0 p hw hh rfl bi bx (by omega) h1 h2

/-- All-zero initial planes for the witness. -/
def pZero : I420Planes :=
  { dst_y := fun _ => 0, dst_u := fun _ => 0, dst_v := fun _ => 0 }

/-- Claim C8, witness: a 2x2 frame whose source byte i has value i:
luma (1,1) is byte 6, U(0,0) = (1+5)/2 = 3, V(0,0) = (3+7)/2 = 5. -/
theorem yuyv_to_i420_spec_witness :
    (yuyv_to_i420 (fun i => i) 2 2 pZero).dst_y 3 = 6 ∧
    (yuyv_to_i420 (fun i => i) 2 2 pZero).dst_u 0 = 3 ∧
    (yuyv_to_i420 (fun i => i) 2 2 pZero).dst_v 0 = 5 := by
  have h := yuyv_to_i420_spec (fun i => i) 2 2 pZero rfl rfl
  refine ⟨?_, ?_, ?_⟩
  · have h1 := h.1 1 1 (by norm_num) (by norm_num)
    simpa using h1
  · have h2 := (h.2 0 0 (by norm_num) (by norm_num)).1
    simpa using h2
  · have h3 := (h.2 0 0 (by norm_num) (by norm_num)).2
    simpa using h3

/-- Claim C1: for every call to Mp4Fragmenter::build_fragment, the 32-bit
data_offset field written into the trun box equals the byte size of the
emitted moof box plus 8, so that data_offset, taken relative to the first
byte of moof, lands exactly on the first byte of the mdat payload.  The
`traf`-boxing copy satisfies this for all inputs
(`Mp4.build_fragment_layout`), but the second copy of mp4_frag.cpp does
not: at sample `[170]`, seq 1, base decode time 0, duration 3000,
keyframe, it writes data_offset = 108 while the mdat payload actually
begins at byte 100 and the whole fragment is only 101 bytes long, so
offset 108 lies past the end of the buffer (the moof box as emitted is
92 bytes, not the declared 100, because the traf box header counted in
`traf_size` is never appended). -/
theorem mp4old_build_fragment_data_offset_mismatch :
    ((Mp4Old.build_fragment [170] 1 0 3000 true).drop 76).take 4 =
      be32 108 ∧
    (Mp4Old.build_fragment [170] 1 0 3000 true).drop 100 = [170] ∧
    (Mp4Old.build_fragment [170] 1 0 3000 true).length = 101 ∧
    ¬((Mp4Old.build_fragment [170] 1 0 3000 true).drop 108 = [170]) := by
  decide

end SilkCast
